import Mathlib

/-
Verification of the DocArray-Cloud core against its specification.

Shallow embedding of the relevant parts of the repository:
 * docarray/computation/numpy_backend.py  (top_k, cosine_sim, euclidean_dist,
   sqeuclidean_dist, rank normalisation helpers)
 * docarray/typing/tensor/tensor.py       (protobuf round trip of a Tensor)
 * docarray/doc_index/backends/weaviate_doc_index.py (_del_items)
 * docarray/array/stacked/array_stacked.py (__getitem__, __delitem__)
 * docarray/array/array/array.py          (append / insert / extend validation)
 * docarray/typing/tensor/abstract_tensor.py (parametrized subclass check)
 * docarray/array/abstract_array.py        (_batch)

Numeric conventions: integer-valued matrix entries are modelled as Int where
only the ordering matters (top_k); real arithmetic is modelled on ℝ
(floating point rounding is not modelled, so approximate statements of the
spec become exact statements on ℝ).  Mutable Python state is passed
explicitly; a Python exception is an `Except.error` (or, where the claim is
about the state after a failed call, a `(state, Option error)` pair, the
state being unchanged exactly when the source raises before mutating).
-/

namespace DocArraySpec

/-! ## numpy primitives shared by several components -/

/-- `gather xs d idx` is `np.take_along_axis` on one row / python indexing
`[xs[i] for i in idx]`; out-of-range positions give the default `d`
(they never occur in the places the functions below use it). -/
def gather {α : Type} (xs : List α) (d : α) (idx : List Nat) : List α :=
  idx.map (fun i => xs.getD i d)

/-- `np.argsort` of one row: the positions of the row sorted by their value.
numpy does not promise a tie order, we model the stable order. -/
def argsort (row : List Int) : List Nat :=
  List.insertionSort (fun i j => row.getD i 0 ≤ row.getD j 0) (List.range row.length)

/-- `np.argpartition(row, kth=k)`: a permutation of the positions whose first
`k` entries hold the `k` smallest values.  numpy leaves the order inside the
two blocks unspecified; we model the one valid instance in which the whole
permutation is sorted (the fully sorted permutation satisfies the partition
contract). -/
def argpartition (row : List Int) (_k : Nat) : List Nat :=
  argsort row

/-! ## NumpyCompBackend.Retrieval.top_k  (numpy_backend.py lines 48-93) -/

/-- The branch of `top_k` on one (possibly negated) row: full argsort and
prefix when `k >= row_length`, else partial selection of `k` candidates
followed by a sort of that slice (numpy_backend.py lines 80-88). -/
def topkCore (row1 : List Int) (k : Nat) : List Int × List Nat :=
  if k ≥ row1.length then
    let idx := (argsort row1).take k
    (gather row1 0 idx, idx)
  else
    let idx_ps := (argpartition row1 k).take k
    let vals := gather row1 0 idx_ps
    let idx_fs := argsort vals
    (gather vals 0 idx_fs, gather idx_ps 0 idx_fs)

/-- One row of `top_k` after the rank-1 expansion: mirrors the body of
`NumpyCompBackend.Retrieval.top_k` applied along axis 1, including the
negation trick implementing `descending`. -/
def topkRow (row : List Int) (k : Nat) (descending : Bool) : List Int × List Nat :=
  let row1 := if descending then row.map (fun v => -v) else row
  let p := topkCore row1 k
  (if descending then p.1.map (fun v => -v) else p.1, p.2)

/-- `top_k` on an already two-dimensional input (one entry per query row). -/
def top_k_mat (values : List (List Int)) (k : Nat) (descending : Bool) :
    List (List Int) × List (List Nat) :=
  (values.map (fun r => (topkRow r k descending).1),
   values.map (fun r => (topkRow r k descending).2))

/-! ## rank-normalisation helpers (numpy_backend.py lines 9-29)

A numpy array of rank 0, 1 or 2, as used by the metric functions. -/

inductive Arr (α : Type) where
  | scalar (v : α)
  | vec (v : List α)
  | mat (m : List (List α))

/-- `_expand_if_single_axis` for one argument: a rank-1 array becomes a
single-row rank-2 array, everything else is unchanged. -/
def _expand_if_single_axis {α : Type} : Arr α → Arr α
  | .vec v => .mat [v]
  | a => a

/-- `_expand_if_scalar`: a rank-0 array becomes a rank-1 array of length 1. -/
def _expand_if_scalar {α : Type} : Arr α → Arr α
  | .scalar v => .vec [v]
  | a => a

/-- `np.ndarray.squeeze()`: drop every axis of extent 1. -/
def squeezeArr {α : Type} (d : α) : Arr α → Arr α
  | .scalar v => .scalar v
  | .vec v => if v.length = 1 then .scalar (v.getD 0 d) else .vec v
  | .mat m =>
    if m.length = 1 then
      let r := m.getD 0 []
      if r.length = 1 then .scalar (r.getD 0 d) else .vec r
    else if (m.getD 0 []).length = 1 then .vec (m.map (fun r => r.getD 0 d))
    else .mat m

/-- Entrywise map over an `Arr`. -/
def mapArr {α β : Type} (f : α → β) : Arr α → Arr β
  | .scalar v => .scalar (f v)
  | .vec v => .vec (v.map f)
  | .mat m => .mat (m.map (fun r => r.map f))

/-- Whether an `Arr` is a bare scalar (rank 0). -/
def Arr.isScalarArr {α : Type} : Arr α → Bool
  | .scalar _ => true
  | _ => false

/-- The full `top_k` including the rank-1 expansion of the input
(numpy_backend.py lines 74-75); a rank-0 input makes the source raise on
`values.shape[1]`, modelled as `none`. -/
def top_k (values : Arr Int) (k : Nat) (descending : Bool) :
    Option (List (List Int) × List (List Nat)) :=
  match values with
  | .scalar _ => none
  | .vec v => some (top_k_mat [v] k descending)
  | .mat m => some (top_k_mat m k descending)

/-! ## NumpyCompBackend.Metrics  (numpy_backend.py lines 95-204) -/

/-- Row dot product, `np.dot` of two vectors. -/
def dotR (x y : List ℝ) : ℝ := (List.zipWith (· * ·) x y).sum

/-- `np.sum(row ** 2)`. -/
def sumSq (x : List ℝ) : ℝ := (x.map (fun a => a * a)).sum

/-- `np.linalg.norm(row)` (2-norm). -/
noncomputable def norm2 (x : List ℝ) : ℝ := Real.sqrt (sumSq x)

/-- `np.dot(x_mat, y_mat.T)`. -/
def matmulT (x y : List (List ℝ)) : List (List ℝ) :=
  x.map (fun xr => y.map (fun yr => dotR xr yr))

/-- `np.outer u v`. -/
def outer (u v : List ℝ) : List (List ℝ) :=
  u.map (fun a => v.map (fun b => a * b))

/-- `np.clip (-1) 1` on one entry. -/
def clip1 (v : ℝ) : ℝ := min 1 (max (-1) v)

/-- Entrywise combination of two matrices of identical shape (how the numpy
expression `(A + eps) / (B + eps)` combines its operands). -/
def map2 {α β γ : Type} (f : α → β → γ) (A : List (List α)) (B : List (List β)) :
    List (List γ) :=
  List.zipWith (List.zipWith f) A B

/-- The `sims` matrix of `cosine_sim` before `squeeze`
(numpy_backend.py lines 127-137): `np.clip((x·yᵀ + eps)/(outer(‖x rows‖, ‖y rows‖) + eps), -1, 1)`. -/
noncomputable def cosineSimRaw (x y : List (List ℝ)) (eps : ℝ) : List (List ℝ) :=
  map2 (fun a b => clip1 ((a + eps) / (b + eps)))
    (matmulT x y) (outer (x.map norm2) (y.map norm2))

/-- Modelled from the spec: `cosine_sim(x, y, eps)` is
`(x·yᵀ + eps) / (‖x‖‖y‖ + eps)` clipped to `[-1, 1]`, stated entrywise;
this is the spec's formula, to be compared with `cosineSimRaw` from the code. -/
noncomputable def cosineSimSpec (x y : List (List ℝ)) (eps : ℝ) : List (List ℝ) :=
  x.map (fun xr => y.map (fun yr =>
    clip1 ((dotR xr yr + eps) / (norm2 xr * norm2 yr + eps))))

/-- `NumpyCompBackend.Metrics.cosine_sim`: expand rank-1 inputs, compute the
similarity matrix, `squeeze`, re-expand a scalar result.  A rank-0 input makes
`np.linalg.norm(..., axis=1)` raise, modelled as `none`. -/
noncomputable def cosine_sim (x y : Arr ℝ) (eps : ℝ) : Option (Arr ℝ) :=
  match _expand_if_single_axis x, _expand_if_single_axis y with
  | .mat xm, .mat ym =>
      some (_expand_if_scalar (squeezeArr 0 (Arr.mat (cosineSimRaw xm ym eps))))
  | _, _ => none

/-- The fixed `eps` of `sqeuclidean_dist` (numpy_backend.py line 189). -/
noncomputable def sqeuclidEps : ℝ := 1 / 10 ^ 7

/-- The broadcast expression
`np.sum(y_mat**2, axis=1) + np.sum(x_mat**2, axis=1)[:, np.newaxis] - 2 * np.dot(x_mat, y_mat.T)`,
stated entrywise (numpy broadcasting of the two row-sum vectors). -/
def sqeuclidRaw (x y : List (List ℝ)) : List (List ℝ) :=
  x.map (fun xr => y.map (fun yr => sumSq yr + sumSq xr - 2 * dotR xr yr))

/-- `np.where(np.logical_and(dists < 0, dists > -eps), 0, dists)` on one entry. -/
noncomputable def clampNegNoise (d : ℝ) : ℝ :=
  if d < 0 ∧ -sqeuclidEps < d then 0 else d

/-- `NumpyCompBackend.Metrics.sqeuclidean_dist` (lines 168-204). -/
noncomputable def sqeuclidean_dist (x y : Arr ℝ) : Option (Arr ℝ) :=
  match _expand_if_single_axis x, _expand_if_single_axis y with
  | .mat xm, .mat ym =>
      let dists := squeezeArr 0 (Arr.mat (sqeuclidRaw xm ym))
      some (_expand_if_scalar (mapArr clampNegNoise dists))
  | _, _ => none

/-- `NumpyCompBackend.Metrics.euclidean_dist` (lines 140-166): elementwise
square root of `sqeuclidean_dist` of the expanded inputs, squeezed and
re-expanded. -/
noncomputable def euclidean_dist (x y : Arr ℝ) : Option (Arr ℝ) :=
  match _expand_if_single_axis x, _expand_if_single_axis y with
  | .mat xm, .mat ym =>
      match sqeuclidean_dist (Arr.mat xm) (Arr.mat ym) with
      | some d => some (_expand_if_scalar (squeezeArr 0 (mapArr Real.sqrt d)))
      | none => none
  | _, _ => none

/-! ## Tensor protobuf round trip (typing/tensor/tensor.py lines 94-115) -/

/-- The numpy dtypes appearing in the model (enough to exhibit the behaviour;
`str` below is `np.dtype.str`). -/
inductive DType where
  | int8 | int32 | int64 | float32 | float64
deriving DecidableEq

def DType.itemsize : DType → Nat
  | .int8 => 1
  | .int32 => 4
  | .int64 => 8
  | .float32 => 4
  | .float64 => 8

def DType.dtypeStr : DType → String
  | .int8 => "|i1"
  | .int32 => "<i4"
  | .int64 => "<i8"
  | .float32 => "<f4"
  | .float64 => "<f8"

/-- What `np.frombuffer` does with the dtype string. -/
def parseDtype (s : String) : Option DType :=
  if s = "|i1" then some .int8
  else if s = "<i4" then some .int32
  else if s = "<i8" then some .int64
  else if s = "<f4" then some .float32
  else if s = "<f8" then some .float64
  else none

/-- A numpy tensor as the round trip sees it: dtype, shape and the packed
row-major buffer (`value.tobytes()`). -/
structure NpTensor where
  dtype : DType
  shape : List Nat
  buffer : List UInt8
deriving DecidableEq

/-- Number of elements of a shape. -/
def prodShape (s : List Nat) : Nat := s.prod

/-- The dense part of `NdArrayProto` filled by `_flush_tensor_to_proto`. -/
structure NdArrayProto where
  buffer : List UInt8
  shape : List Nat
  dtype : String
deriving DecidableEq

/-- `Tensor._flush_tensor_to_proto` (tensor.py lines 110-115). -/
def _flush_tensor_to_proto (t : NpTensor) : NdArrayProto :=
  ⟨t.buffer, t.shape, t.dtype.dtypeStr⟩

/-- `Tensor._read_from_proto` (tensor.py lines 94-108):
`np.frombuffer(buffer, dtype).reshape(shape)` when the buffer is non-empty
(frombuffer fails unless the byte count is a multiple of the item size,
reshape fails unless the element counts agree); otherwise `np.zeros(shape)`
— dtype float64 — when the shape is non-empty; otherwise an error. -/
def _read_from_proto (p : NdArrayProto) : Except String NpTensor :=
  if p.buffer ≠ [] then
    match parseDtype p.dtype with
    | none => .error "unknown dtype"
    | some dt =>
      if p.buffer.length % dt.itemsize = 0 then
        if p.buffer.length / dt.itemsize = prodShape p.shape then
          .ok ⟨dt, p.shape, p.buffer⟩
        else .error "cannot reshape"
      else .error "buffer size must be a multiple of element size"
  else if p.shape.length > 0 then
    .ok ⟨DType.float64, p.shape, List.replicate (8 * prodShape p.shape) 0⟩
  else .error "proto message cannot be cast to a Tensor"

/-! ## WeaviateDocumentIndex._del_items (weaviate_doc_index.py lines 158-179)

Documents are represented by their identity; the store is the list of ids
currently persisted in the index. -/

/-- One `client.batch.delete_objects` call with the `Or`-of-`Equal` filter on
the requested ids: deletes the first (up to) `limit` matching objects —
weaviate caps the number of deletions per query — and reports how many
objects the call matched (and deleted). -/
def delete_objects (limit : Nat) (store : List String) (ids : List String) :
    List String × Nat :=
  match limit, store with
  | _, [] => ([], 0)
  | 0, s => (s, 0)
  | l + 1, x :: rest =>
    if x ∈ ids then
      let r := delete_objects l rest ids
      (r.1, r.2 + 1)
    else
      let r := delete_objects (l + 1) rest ids
      (x :: r.1, r.2)

/-- The `while has_matches` loop of `_del_items`, with explicit fuel standing
in for the while loop (the loop terminates because every iteration that
reports a match shrinks the store; `store.length + 1` calls always suffice,
see `delItemsLoop_spec`). -/
def delItemsLoop (limit : Nat) (ids : List String) : Nat → List String → List String
  | 0, store => store
  | fuel + 1, store =>
    let r := delete_objects limit store ids
    if r.2 = 0 then r.1 else delItemsLoop limit ids fuel r.1

/-- `WeaviateDocumentIndex._del_items`. -/
def _del_items (limit : Nat) (store : List String) (doc_ids : List String) :
    List String :=
  delItemsLoop limit doc_ids (store.length + 1) store

/-- Predicate for describing the net effect of `_del_items`: the ids the
requested deletion does not touch. -/
def notRequested (ids : List String) (s : String) : Bool := decide (s ∉ ids)

/-! ## DocumentArrayStacked (array/stacked/array_stacked.py) -/

/-- An index key as `__getitem__` / `__delitem__` receive it:
`Union[int, slice, Iterable[int], Iterable[bool], None]`. -/
inductive StackKey where
  | intKey (i : Int)
  | sliceKey (start stop : Option Int)
  | iterKey (ixs : List Int)
  | noneKey
deriving DecidableEq

/-- The stacked container, abstracted over its columnar storage rows. -/
structure DocumentArrayStacked (α : Type) where
  storage : List α
deriving DecidableEq

/-- `StorageView(item, storage)`: the zero-copy per-document view. -/
structure StorageView (α : Type) where
  index : StackKey
  storage : List α
deriving DecidableEq

/-- `DocumentArrayStacked.__getitem__` (lines 116-125): `None` returns the
container itself (the PyTorch behaviour); any other key builds a view
document over the shared storage. -/
def DocumentArrayStacked.getitem {α : Type} (da : DocumentArrayStacked α)
    (item : StackKey) : Sum (DocumentArrayStacked α) (StorageView α) :=
  match item with
  | .noneKey => .inl da
  | k => .inr ⟨k, da.storage⟩

/-- The message of the `NotImplementedError` raised by
`DocumentArrayStacked.__delitem__` (lines 147-154). -/
def delitemMessage : String :=
  "DocumentArrayStacked does not implement __del_item__. You are trying to delete an elementfrom DocumentArrayStacked which is not designed for this operation. Please `unstack` before doing the deletion"

/-- `DocumentArrayStacked.__delitem__`: raises unconditionally, before
touching the storage. -/
def DocumentArrayStacked.delitem {α : Type} (_da : DocumentArrayStacked α)
    (_key : StackKey) : Except String (DocumentArrayStacked α) :=
  .error delitemMessage

/-- Run `__delitem__` under Python exception semantics: on a raise the
receiver is left as it was. -/
def runDelitem {α : Type} (da : DocumentArrayStacked α) (key : StackKey) :
    DocumentArrayStacked α × Option String :=
  match da.delitem key with
  | .ok da2 => (da2, none)
  | .error e => (da, some e)

/-! ## DocumentArray append / insert / extend (array/array/array.py lines 149-199) -/

/-- A Python document as the validation sees it: the names of its class and
ancestors (its mro), plus a payload distinguishing documents. -/
structure PyDoc where
  mro : List String
  payload : Nat
deriving DecidableEq

/-- The array's declared `document_type`. -/
structure DocClass where
  name : String
  isAnyDocument : Bool
deriving DecidableEq

/-- `isinstance(doc, document_type)`. -/
def isinstance (doc : PyDoc) (c : DocClass) : Bool :=
  c.name ∈ doc.mro

/-- `DocumentArray._validate_one_doc` (lines 156-162): when the declared type
is not (a subclass of) `AnyDocument` and the document is not an instance of
it, raise `ValueError`; otherwise return the document itself — no coercion. -/
def _validate_one_doc (dt : DocClass) (doc : PyDoc) : Except String PyDoc :=
  if !dt.isAnyDocument && !isinstance doc dt then
    .error ("doc is not a " ++ dt.name)
  else
    .ok doc

/-- `DocumentArray.append` under exception semantics: validation happens
before the underlying `list.append`, so a failing call leaves the data
untouched. -/
def appendRun (dt : DocClass) (data : List PyDoc) (doc : PyDoc) :
    List PyDoc × Option String :=
  match _validate_one_doc dt doc with
  | .ok d => (data ++ [d], none)
  | .error e => (data, some e)

/-- Python's `list.insert` index clamping. -/
def pyInsertIndex (n : Nat) (i : Int) : Nat :=
  if i < 0 then ((n : Int) + i).toNat else min i.toNat n

/-- `DocumentArray.insert` under exception semantics. -/
def insertRun (dt : DocClass) (data : List PyDoc) (i : Int) (doc : PyDoc) :
    List PyDoc × Option String :=
  match _validate_one_doc dt doc with
  | .ok d =>
    (data.take (pyInsertIndex data.length i) ++ [d] ++
      data.drop (pyInsertIndex data.length i), none)
  | .error e => (data, some e)

/-- `DocumentArray.extend`: `list.extend` consumes the `_validate_docs`
generator, appending each validated document before the next one is
validated; a validation error therefore leaves the documents validated so
far already appended. -/
def extendRun (dt : DocClass) (data : List PyDoc) :
    List PyDoc → List PyDoc × Option String
  | [] => (data, none)
  | doc :: rest =>
    match _validate_one_doc dt doc with
    | .ok d => extendRun dt (data ++ [d]) rest
    | .error e => (data, some e)

/-! ## _ParametrizedMeta subclass check (typing/tensor/abstract_tensor.py) -/

/-- A Python class as the metaclass check sees it: its identity, its method
resolution order (identities, the class itself first; the id `0` is
`AbstractTensor`), and its `__docarray_target_shape__` attribute
(`none` models the `getattr` default `False`). -/
structure PyClass where
  cid : Nat
  mro : List Nat
  targetShape : Option (List Nat)
deriving DecidableEq

/-- The id standing for `AbstractTensor`. -/
def abstractTensorCid : Nat := 0

/-- Python truthiness of the `__docarray_target_shape__` attribute: absent
(`False`) and the empty tuple are falsy. -/
def truthyShape : Option (List Nat) → Bool
  | some s => !s.isEmpty
  | none => false

/-- `type.__subclasscheck__`: the default nominal check, true iff `cls` is in
the mro of `subclass`. -/
def nominalSubclasscheck (cls sub : PyClass) : Bool :=
  cls.cid ∈ sub.mro

/-- `_ParametrizedMeta.__subclasscheck__` (abstract_tensor.py lines 33-48). -/
def pySubclasscheck (cls sub : PyClass) : Bool :=
  let is_tensor := abstractTensorCid ∈ sub.mro
  let same_parents := is_tensor && (cls.mro.tail == sub.mro.tail)
  let same_shape := same_parents && truthyShape sub.targetShape &&
    truthyShape cls.targetShape && (sub.targetShape == cls.targetShape)
  if same_shape then true else nominalSubclasscheck cls sub

/-- `AbstractTensor._docarray_create_parametrized_type` (lines 122-150): a
fresh class subclassing `base`, carrying the target shape. -/
def _docarray_create_parametrized_type (base : PyClass) (shape : List Nat)
    (freshCid : Nat) : PyClass :=
  ⟨freshCid, freshCid :: base.mro, some shape⟩

/-! ## AnyDocArray._batch (array/abstract_array.py lines 274-308) -/

/-- The dynamically typed `batch_size` argument: an int, or some other
number (a float), which `isinstance(batch_size, int)` rejects. -/
inductive PyNum where
  | pyInt (i : Int)
  | pyFloat (q : ℚ)
deriving DecidableEq

/-- `rich.progress.track`: purely cosmetic progress reporting, the iterated
values are returned unchanged whatever the `disable` flag is. -/
def track (l : List Nat) (_disable : Bool) : List Nat := l

/-- `AnyDocArray._batch` with `shuffle=False` (the `shuffle=True` branch
permutes the index list with `random.shuffle` and is outside this
deterministic model).  Validates `batch_size`, then yields
`self[indices[i*b : (i+1)*b]]` for `i < ceil(N / b)`; the generator is
modelled by the list of the batches it yields. -/
def _batch {α : Type} [Inhabited α] (data : List α) (batch_size : PyNum)
    (show_progress : Bool) : Except String (List (List α)) :=
  match batch_size with
  | .pyFloat _ => .error "batch_size should be a positive integer"
  | .pyInt bi =>
    if bi ≤ 0 then .error "batch_size should be a positive integer"
    else
      let b := bi.toNat
      let N := data.length
      let indices := List.range N
      let n_batches := (N + b - 1) / b
      .ok ((track (List.range n_batches) (!show_progress)).map
        (fun i => gather data default ((indices.drop (i * b)).take b)))

/-! ## Theorems -/

theorem parseDtype_dtypeStr (d : DType) : parseDtype d.dtypeStr = some d := by
  cases d <;> rfl

theorem DType.itemsize_pos (d : DType) : 0 < d.itemsize := by
  cases d <;> decide

/-- C10: on a `DocumentArrayStacked`, indexing with `None` returns the very
container, not a per-document view and not an error. -/
theorem C10_stacked_getitem_none {α : Type} (da : DocumentArrayStacked α) :
    da.getitem StackKey.noneKey = Sum.inl da := rfl

/-- C4: deleting from a `DocumentArrayStacked` — whatever the key is — raises
an error whose message directs the caller to `unstack` first, and under
Python exception semantics the storage (hence the length) is exactly what it
was before the call. -/
theorem C4_stacked_delitem_raises {α : Type} (da : DocumentArrayStacked α)
    (key : StackKey) :
    runDelitem da key = (da, some delitemMessage) ∧
      (∃ pre post, delitemMessage = pre ++ "unstack" ++ post) := by
  refine ⟨rfl, "DocumentArrayStacked does not implement __del_item__. You are trying to delete an elementfrom DocumentArrayStacked which is not designed for this operation. Please `", "` before doing the deletion", ?_⟩
  rfl

/-- C2 (counterexample): the round trip is not exact for every tensor.  A
tensor with zero elements serialises to an empty buffer; `_read_from_proto`
then takes the `np.zeros(shape)` branch and returns a float64 tensor, losing
the original int32 dtype. -/
theorem C2_tensor_proto_counterexample :
    _read_from_proto (_flush_tensor_to_proto ⟨DType.int32, [0], []⟩) =
      .ok ⟨DType.float64, [0], []⟩ ∧
    (⟨DType.float64, [0], []⟩ : NpTensor) ≠ ⟨DType.int32, [0], []⟩ := by
  exact ⟨rfl, by decide⟩

/-- C2 (amended): for every tensor whose packed buffer is non-empty (i.e.
with at least one element) and whose buffer length is the item size times
the element count, decoding the encoded proto returns the tensor exactly:
same dtype, same shape, bit-for-bit the same buffer.  (Zero-element tensors
decode to float64 zeros of the same shape, see the counterexample.) -/
theorem C2_tensor_proto_roundtrip_nonempty (t : NpTensor)
    (hwf : t.buffer.length = t.dtype.itemsize * prodShape t.shape)
    (hne : t.buffer ≠ []) :
    _read_from_proto (_flush_tensor_to_proto t) = .ok t := by
  have hpos : 0 < t.dtype.itemsize := t.dtype.itemsize_pos
  unfold _read_from_proto _flush_tensor_to_proto
  simp only [hne, parseDtype_dtypeStr, hwf]
  rw [if_pos hne]
  simp [Nat.mul_mod_right, Nat.mul_div_cancel_left _ hpos]

theorem C2_tensor_proto_roundtrip_witness :
    ([0, 0, 0, 0] : List UInt8).length = DType.int32.itemsize * prodShape [1] ∧
    ([0, 0, 0, 0] : List UInt8) ≠ [] ∧
    _read_from_proto (_flush_tensor_to_proto ⟨DType.int32, [1], [0, 0, 0, 0]⟩) =
      .ok ⟨DType.int32, [1], [0, 0, 0, 0]⟩ :=
  ⟨by decide, by decide,
    C2_tensor_proto_roundtrip_nonempty ⟨DType.int32, [1], [0, 0, 0, 0]⟩
      (by decide) (by decide)⟩

/-- C8 (counterexample): the structural subclass check fails for the empty
shape: `()` is falsy in Python, so `same_shape` is `False` and the check
falls back to the nominal one, under which two independently created
parametrizations of the same tensor base with shape `()` are unrelated. -/
theorem C8_parametrized_subclass_counterexample :
    pySubclasscheck
      (_docarray_create_parametrized_type ⟨1, [1, 0], none⟩ [] 2)
      (_docarray_create_parametrized_type ⟨1, [1, 0], none⟩ [] 3) = false := by
  decide

/-- C8 (amended): for every tensor base class and every non-empty shape `s`,
two parametrized types created by independent calls (fresh class identities
`i` and `j`) satisfy the subclass check: the check is structural on the
shape parameter, not nominal on class identity.  (For the empty shape the
attribute is falsy and the check degrades to the nominal one, see the
counterexample.) -/
theorem C8_parametrized_subclass_structural (base : PyClass) (s : List Nat)
    (i j : Nat) (htensor : abstractTensorCid ∈ base.mro) (hs : s ≠ []) :
    pySubclasscheck
      (_docarray_create_parametrized_type base s i)
      (_docarray_create_parametrized_type base s j) = true := by
  unfold pySubclasscheck _docarray_create_parametrized_type
  have h1 : abstractTensorCid ∈ j :: base.mro := List.mem_cons_of_mem _ htensor
  simp [h1, truthyShape, hs]

theorem C8_parametrized_subclass_witness :
    abstractTensorCid ∈ [1, 0] ∧ ([128] : List Nat) ≠ [] ∧
    pySubclasscheck
      (_docarray_create_parametrized_type ⟨1, [1, 0], none⟩ [128] 2)
      (_docarray_create_parametrized_type ⟨1, [1, 0], none⟩ [128] 3) = true :=
  ⟨by decide, by decide,
    C8_parametrized_subclass_structural ⟨1, [1, 0], none⟩ [128] 2 3
      (by decide) (by decide)⟩

theorem extendRun_all_valid (dt : DocClass) (hdt : dt.isAnyDocument = false) :
    ∀ (docs data : List PyDoc), (∀ d ∈ docs, isinstance d dt = true) →
      extendRun dt data docs = (data ++ docs, none) := by
  intro docs
  induction docs with
  | nil => intro data _; simp [extendRun]
  | cons d rest ih =>
    intro data hall
    have hd : isinstance d dt = true := hall d (List.mem_cons_self d rest)
    have hrest : ∀ x ∈ rest, isinstance x dt = true :=
      fun x hx => hall x (List.mem_cons_of_mem d hx)
    simp only [extendRun, _validate_one_doc, hdt, hd]
    simpa [List.append_assoc] using ih (data ++ [d]) hrest

theorem extendRun_first_invalid (dt : DocClass) (hdt : dt.isAnyDocument = false) :
    ∀ (docs data : List PyDoc) (j : Nat), j < docs.length →
      (∀ d ∈ docs.take j, isinstance d dt = true) →
      isinstance (docs.getD j ⟨[], 0⟩) dt = false →
      extendRun dt data docs = (data ++ docs.take j, some ("doc is not a " ++ dt.name)) := by
  intro docs
  induction docs with
  | nil => intro data j hj; simp at hj
  | cons d rest ih =>
    intro data j hj hvalid hbad
    match j with
    | 0 =>
      have hd : isinstance d dt = false := by simpa using hbad
      simp [extendRun, _validate_one_doc, hdt, hd]
    | j' + 1 =>
      have hd : isinstance d dt = true := hvalid d (by simp)
      have hrest : ∀ x ∈ rest.take j', isinstance x dt = true := by
        intro x hx
        exact hvalid x (by simpa using List.mem_cons_of_mem d hx)
      have hbad' : isinstance (rest.getD j' ⟨[], 0⟩) dt = false := by simpa using hbad
      have hj' : j' < rest.length := by simpa using hj
      simp only [extendRun, _validate_one_doc, hdt, hd]
      simpa [List.append_assoc] using ih (data ++ [d]) j' hj' hrest hbad'

/-- C5: on a typed `DocumentArray[T]` (T not the untyped `AnyDocument`),
`append`, `insert` and `extend` raise a type error for a document that is
not an instance of T and leave the previous contents in place (for `extend`,
the valid documents preceding the failing one have already been appended —
the prior contents are preserved as a prefix and the failing document is not
stored); an instance of T is stored unchanged, with no coercion. -/
theorem C5_typed_array_validation (dt : DocClass)
    (hdt : dt.isAnyDocument = false) :
    (∀ (data : List PyDoc) (doc : PyDoc), isinstance doc dt = true →
        appendRun dt data doc = (data ++ [doc], none)) ∧
    (∀ (data : List PyDoc) (doc : PyDoc), isinstance doc dt = false →
        appendRun dt data doc = (data, some ("doc is not a " ++ dt.name))) ∧
    (∀ (data : List PyDoc) (i : Int) (doc : PyDoc), isinstance doc dt = true →
        insertRun dt data i doc =
          (data.take (pyInsertIndex data.length i) ++ [doc] ++
            data.drop (pyInsertIndex data.length i), none)) ∧
    (∀ (data : List PyDoc) (i : Int) (doc : PyDoc), isinstance doc dt = false →
        insertRun dt data i doc = (data, some ("doc is not a " ++ dt.name))) ∧
    (∀ (data docs : List PyDoc), (∀ d ∈ docs, isinstance d dt = true) →
        extendRun dt data docs = (data ++ docs, none)) ∧
    (∀ (data docs : List PyDoc) (j : Nat), j < docs.length →
        (∀ d ∈ docs.take j, isinstance d dt = true) →
        isinstance (docs.getD j ⟨[], 0⟩) dt = false →
        extendRun dt data docs =
          (data ++ docs.take j, some ("doc is not a " ++ dt.name))) := by
  refine ⟨?_, ?_, ?_, ?_, ?_, ?_⟩
  · intro data doc h; simp [appendRun, _validate_one_doc, hdt, h]
  · intro data doc h; simp [appendRun, _validate_one_doc, hdt, h]
  · intro data i doc h; simp [insertRun, _validate_one_doc, hdt, h]
  · intro data i doc h; simp [insertRun, _validate_one_doc, hdt, h]
  · intro data docs h; exact extendRun_all_valid dt hdt docs data h
  · intro data docs j hj hv hb; exact extendRun_first_invalid dt hdt docs data j hj hv hb

theorem C5_typed_array_validation_witness :
    (⟨"MyDoc", false⟩ : DocClass).isAnyDocument = false ∧
    appendRun ⟨"MyDoc", false⟩ [] ⟨["MyDoc"], 1⟩ = ([⟨["MyDoc"], 1⟩], none) ∧
    appendRun ⟨"MyDoc", false⟩ [⟨["MyDoc"], 1⟩] ⟨["Other"], 2⟩ =
      ([⟨["MyDoc"], 1⟩], some "doc is not a MyDoc") ∧
    extendRun ⟨"MyDoc", false⟩ [] [⟨["MyDoc"], 1⟩, ⟨["Other"], 2⟩, ⟨["MyDoc"], 3⟩] =
      ([⟨["MyDoc"], 1⟩], some "doc is not a MyDoc") :=
  ⟨rfl,
    (C5_typed_array_validation ⟨"MyDoc", false⟩ rfl).1 [] ⟨["MyDoc"], 1⟩ (by decide),
    (C5_typed_array_validation ⟨"MyDoc", false⟩ rfl).2.1 [⟨["MyDoc"], 1⟩]
      ⟨["Other"], 2⟩ (by decide),
    by
      have h := (C5_typed_array_validation ⟨"MyDoc", false⟩ rfl).2.2.2.2.2 []
        [⟨["MyDoc"], 1⟩, ⟨["Other"], 2⟩, ⟨["MyDoc"], 3⟩] 1 (by decide)
        (by decide) (by decide)
      simpa using h⟩

theorem delete_objects_filter (ids : List String) :
    ∀ (store : List String) (l : Nat),
      (delete_objects l store ids).1.filter (notRequested ids) =
        store.filter (notRequested ids) := by
  intro store
  induction store with
  | nil => intro l; cases l <;> rfl
  | cons x rest ih =>
    intro l
    match l with
    | 0 => rfl
    | l' + 1 =>
      by_cases hx : x ∈ ids
      · have hpx : notRequested ids x = false := by simp [notRequested, hx]
        simp only [delete_objects, if_pos hx]
        rw [ih l', List.filter_cons, hpx]
        simp
      · have hpx : notRequested ids x = true := by simp [notRequested, hx]
        simp only [delete_objects, if_neg hx]
        rw [List.filter_cons, List.filter_cons, hpx]
        simp only [if_true]
        rw [ih (l' + 1)]

theorem delete_objects_length (ids : List String) :
    ∀ (store : List String) (l : Nat),
      (delete_objects l store ids).1.length + (delete_objects l store ids).2 =
        store.length := by
  intro store
  induction store with
  | nil => intro l; cases l <;> rfl
  | cons x rest ih =>
    intro l
    match l with
    | 0 => rfl
    | l' + 1 =>
      by_cases hx : x ∈ ids
      · simp only [delete_objects, if_pos hx]
        have := ih l'
        simp only [List.length_cons]
        omega
      · simp only [delete_objects, if_neg hx]
        have := ih (l' + 1)
        simp only [List.length_cons]
        omega

theorem delete_objects_no_match (ids : List String) :
    ∀ (store : List String) (l : Nat), 0 < l →
      (delete_objects l store ids).2 = 0 →
      (delete_objects l store ids).1 = store ∧ ∀ x ∈ store, x ∉ ids := by
  intro store
  induction store with
  | nil => intro l _ _; cases l <;> simp [delete_objects]
  | cons x rest ih =>
    intro l hl hm
    match l, hl with
    | l' + 1, _ =>
      by_cases hx : x ∈ ids
      · simp only [delete_objects, if_pos hx] at hm
        omega
      · simp only [delete_objects, if_neg hx] at hm ⊢
        obtain ⟨h1, h2⟩ := ih (l' + 1) (Nat.succ_pos l') hm
        refine ⟨by rw [h1], ?_⟩
        intro y hy
        rcases List.mem_cons.mp hy with h | h
        · subst h; exact hx
        · exact h2 y h

theorem delItemsLoop_spec (limit : Nat) (hl : 0 < limit) (ids : List String) :
    ∀ (fuel : Nat) (store : List String), store.length < fuel →
      delItemsLoop limit ids fuel store =
        store.filter (notRequested ids) := by
  intro fuel
  induction fuel with
  | zero => intro store h; omega
  | succ f ih =>
    intro store hs
    by_cases hm : (delete_objects limit store ids).2 = 0
    · obtain ⟨h1, h2⟩ := delete_objects_no_match ids store limit hl hm
      simp only [delItemsLoop, if_pos hm, h1]
      exact (List.filter_eq_self.mpr
        (fun a ha => by simp [notRequested, h2 a ha])).symm
    · simp only [delItemsLoop, if_neg hm]
      have hlen := delete_objects_length ids store limit
      have hshort : (delete_objects limit store ids).1.length < f := by omega
      rw [ih _ hshort, delete_objects_filter]

/-- C3 (counterexample): the claim fails on the Weaviate `_del_items`:
deleting `["a","b","c"]` from a store holding `a`, `c`, `d` — `"b"` absent —
deletes `a` and `c` (only `d` remains) and raises nothing; the call is not
all-or-nothing and no missing-id error is produced. -/
theorem C3_del_items_counterexample :
    _del_items 1 ["a", "c", "d"] ["a", "b", "c"] = ["d"] ∧
    ("a" ∈ (["a", "c", "d"] : List String) ∧ "c" ∈ (["a", "c", "d"] : List String) ∧
      "b" ∉ (["a", "c", "d"] : List String)) ∧
    "a" ∉ (["d"] : List String) ∧ "c" ∉ (["d"] : List String) := by
  refine ⟨rfl, by decide, by decide, by decide⟩

/-- C3 (amended): `WeaviateDocumentIndex._del_items` deletes exactly the
requested identities that are present and silently ignores absent ones: for
any positive per-query deletion limit, the store after the call is the store
filtered to the ids not requested.  No not-found error exists in this
adapter and the call is not all-or-nothing. -/
theorem C3_del_items_deletes_present (limit : Nat) (hl : 0 < limit)
    (store doc_ids : List String) :
    _del_items limit store doc_ids = store.filter (notRequested doc_ids) := by
  unfold _del_items
  exact delItemsLoop_spec limit hl doc_ids (store.length + 1) store (Nat.lt_succ_self _)

theorem C3_del_items_witness :
    0 < 1 ∧
    _del_items 1 ["a", "c", "d"] ["a", "b", "c"] =
      List.filter (notRequested ["a", "b", "c"]) ["a", "c", "d"] :=
  ⟨Nat.one_pos, C3_del_items_deletes_present 1 Nat.one_pos ["a", "c", "d"] ["a", "b", "c"]⟩

theorem drop_range' (m : Nat) :
    ∀ (s n : Nat), (List.range' s n).drop m = List.range' (s + m) (n - m) := by
  induction m with
  | zero => intro s n; simp
  | succ m ih =>
    intro s n
    match n with
    | 0 => simp
    | q + 1 =>
      rw [List.range'_succ, List.drop_succ_cons, ih (s + 1) q]
      congr 1 <;> omega

theorem take_range' (c : Nat) :
    ∀ (s n : Nat), (List.range' s n).take c = List.range' s (min c n) := by
  induction c with
  | zero => intro s n; simp
  | succ c ih =>
    intro s n
    match n with
    | 0 => simp
    | q + 1 =>
      rw [List.range'_succ, List.take_succ_cons, ih (s + 1) q]
      have : min (c + 1) (q + 1) = min c q + 1 := by omega
      rw [this, List.range'_succ]

theorem gather_range' {α : Type} (xs : List α) (d : α) :
    ∀ (c a : Nat), a + c ≤ xs.length →
      gather xs d (List.range' a c) = (xs.drop a).take c := by
  intro c
  induction c with
  | zero => intro a _; simp [gather]
  | succ c ih =>
    intro a h
    have ha : a < xs.length := by omega
    rw [List.range'_succ]
    show xs.getD a d :: gather xs d (List.range' (a + 1) c) = _
    rw [ih (a + 1) (by omega), List.drop_eq_getElem_cons ha, List.take_succ_cons,
      List.getD_eq_getElem xs d ha]

/-- The slice of the index list that `_batch` gathers is the contiguous slice
of the data. -/
theorem gather_batch_slice {α : Type} (data : List α) (d : α) (a b : Nat)
    (ha : a ≤ data.length) :
    gather data d (((List.range data.length).drop a).take b) =
      (data.drop a).take b := by
  rw [List.range_eq_range', drop_range', take_range', Nat.zero_add,
    gather_range' data d _ a (by omega)]
  rcases Nat.le_total b (data.length - a) with h | h
  · rw [Nat.min_eq_left h]
  · rw [Nat.min_eq_right h, List.take_of_length_le (by simp),
      List.take_of_length_le (by simp; omega)]

theorem flatten_batches_aux {α : Type} (b : Nat) (hb : 0 < b) :
    ∀ (N : Nat) (data : List α), data.length = N →
      ((List.range ((N + b - 1) / b)).map
        (fun j => (data.drop (j * b)).take b)).flatten = data := by
  intro N
  induction N using Nat.strong_induction_on with
  | _ N ih =>
    intro data hN
    match data with
    | [] =>
      have : N = 0 := by simpa using hN.symm
      subst this
      rw [Nat.div_eq_of_lt (by omega)]
      rfl
    | x :: rest =>
      have hN1 : 1 ≤ N := by simp at hN; omega
      have hceil : (N + b - 1) / b = ((N - b) + b - 1) / b + 1 := by
        have h1 : N + b - 1 = (N - 1) + b := by omega
        rw [h1, Nat.add_div_right _ hb]
        rcases Nat.le_total N b with h | h
        · have h2 : N - b = 0 := by omega
          rw [h2, Nat.div_eq_of_lt (by omega), Nat.div_eq_of_lt (by omega)]
        · have h3 : N - b + b - 1 = N - 1 := by omega
          rw [h3]
      rw [hceil, List.range_succ_eq_map, List.map_cons, List.map_map,
        List.flatten_cons, Nat.zero_mul, List.drop_zero]
      have hdrop : ((x :: rest).drop b).length = N - b := by
        rw [List.length_drop, hN]
      have htail :
          ((List.range ((N - b + b - 1) / b)).map
            ((fun j => ((x :: rest).drop (j * b)).take b) ∘ Nat.succ)).flatten =
            (x :: rest).drop b := by
        have hmap : ((List.range ((N - b + b - 1) / b)).map
            ((fun j => ((x :: rest).drop (j * b)).take b) ∘ Nat.succ)) =
            ((List.range ((N - b + b - 1) / b)).map
              (fun j => (((x :: rest).drop b).drop (j * b)).take b)) := by
          apply List.map_congr_left
          intro j _
          simp only [Function.comp_apply, List.drop_drop]
          congr 2
          rw [Nat.succ_mul]
          omega
        rw [hmap]
        exact ih (N - b) (by omega) ((x :: rest).drop b) hdrop
      rw [htail, List.take_append_drop]

theorem batch_count_bounds (b N : Nat) (hb : 0 < b) :
    N ≤ b * ((N + b - 1) / b) ∧ b * ((N + b - 1) / b) < N + b := by
  have hdm := Nat.div_add_mod (N + b - 1) b
  have hmod := Nat.mod_lt (N + b - 1) hb
  omega

theorem batch_index_lt (b N j : Nat) (hb : 0 < b) (hj : j < (N + b - 1) / b) :
    j * b < N := by
  have h1 : (j + 1) * b ≤ ((N + b - 1) / b) * b := Nat.mul_le_mul_right b hj
  have h2 : ((N + b - 1) / b) * b ≤ N + b - 1 := Nat.div_mul_le_self _ b
  have h3 : 0 < (N + b - 1) / b := by omega
  have h4 : b ≤ N + b - 1 := by
    by_contra h
    have : (N + b - 1) / b = 0 := Nat.div_eq_of_lt (by omega)
    omega
  have h5 : 1 ≤ N := by omega
  have h6 : j * b + b ≤ N + b - 1 := by
    calc j * b + b = (j + 1) * b := by ring
    _ ≤ ((N + b - 1) / b) * b := h1
    _ ≤ N + b - 1 := h2
  omega

theorem batch_full_size (b N j : Nat) (hb : 0 < b) (hj : j + 1 < (N + b - 1) / b) :
    b ≤ N - j * b := by
  have h1 : (j + 2) * b ≤ ((N + b - 1) / b) * b :=
    Nat.mul_le_mul_right b (by omega)
  have h2 : ((N + b - 1) / b) * b ≤ N + b - 1 := Nat.div_mul_le_self _ b
  have h6 : j * b + 2 * b ≤ N + b - 1 := by
    calc j * b + 2 * b = (j + 2) * b := by ring
    _ ≤ N + b - 1 := le_trans h1 h2
  omega

/-- C9: on any array and positive integer batch size `b`, `_batch` (shuffle
disabled) yields `ceil(N/b)` batches whose in-order concatenation is the
original array, each of size `b` except possibly a smaller (but non-empty)
final one; a non-positive or non-integer `batch_size` fails with an error
before any batch is produced, and the progress flag never changes the
batches.  The batch count `ceil(N/b)` is pinned by `N ≤ b·count < N + b`. -/
theorem C9_batch_contract {α : Type} [Inhabited α] (data : List α) (bi : Int)
    (sp : Bool) :
    (0 < bi →
      ∃ bs : List (List α),
        _batch data (PyNum.pyInt bi) sp = .ok bs ∧
        bs.flatten = data ∧
        data.length ≤ bi.toNat * bs.length ∧
        bi.toNat * bs.length < data.length + bi.toNat ∧
        (∀ j, j + 1 < bs.length → (bs.getD j []).length = bi.toNat) ∧
        (∀ j, j < bs.length →
          0 < (bs.getD j []).length ∧ (bs.getD j []).length ≤ bi.toNat)) ∧
    (bi ≤ 0 →
      _batch data (PyNum.pyInt bi) sp = .error "batch_size should be a positive integer") ∧
    (∀ q : ℚ,
      _batch data (PyNum.pyFloat q) sp = .error "batch_size should be a positive integer") ∧
    _batch data (PyNum.pyInt bi) true = _batch data (PyNum.pyInt bi) false := by
  refine ⟨?_, ?_, fun q => rfl, rfl⟩
  · intro hpos
    have hble : ¬ bi ≤ 0 := by omega
    have hb : 0 < bi.toNat := by omega
    set b := bi.toNat with hbdef
    set N := data.length with hNdef
    set nB := (N + b - 1) / b with hnBdef
    refine ⟨(List.range nB).map (fun j => (data.drop (j * b)).take b), ?_, ?_, ?_, ?_, ?_, ?_⟩
    · simp only [_batch, if_neg hble, track]
      congr 1
      apply List.map_congr_left
      intro j hj
      have hjN : j * b ≤ N := le_of_lt (batch_index_lt b N j hb (List.mem_range.mp hj))
      exact gather_batch_slice data default (j * b) b hjN
    · exact flatten_batches_aux b hb N data rfl
    · simpa [List.length_map, List.length_range] using (batch_count_bounds b N hb).1
    · simpa [List.length_map, List.length_range] using (batch_count_bounds b N hb).2
    · intro j hj
      have hjlen : j < nB := by
        simpa [List.length_map, List.length_range] using lt_of_le_of_lt (Nat.le_succ j) hj
      have hj1 : j + 1 < nB := by simpa [List.length_map, List.length_range] using hj
      have hget : (((List.range nB).map (fun j => (data.drop (j * b)).take b)).getD j [])
          = (data.drop (j * b)).take b := by
        rw [List.getD_eq_getElem _ _ (by simpa [List.length_map, List.length_range] using hjlen)]
        simp
      rw [hget, List.length_take, List.length_drop]
      have := batch_full_size b N j hb hj1
      omega
    · intro j hj
      have hjlen : j < nB := by
        simpa [List.length_map, List.length_range] using hj
      have hget : (((List.range nB).map (fun j => (data.drop (j * b)).take b)).getD j [])
          = (data.drop (j * b)).take b := by
        rw [List.getD_eq_getElem _ _ (by simpa [List.length_map, List.length_range] using hjlen)]
        simp
      rw [hget, List.length_take, List.length_drop]
      have := batch_index_lt b N j hb hjlen
      omega
  · intro h
    simp only [_batch, if_pos h]

theorem C9_batch_witness :
    (0 : Int) < 2 ∧
    (∃ bs : List (List Nat),
      _batch [10, 20, 30, 40, 50] (PyNum.pyInt 2) false = .ok bs ∧
      bs.flatten = [10, 20, 30, 40, 50] ∧
      ([10, 20, 30, 40, 50] : List Nat).length ≤ (2 : Int).toNat * bs.length ∧
      (2 : Int).toNat * bs.length < ([10, 20, 30, 40, 50] : List Nat).length + (2 : Int).toNat ∧
      (∀ j, j + 1 < bs.length → (bs.getD j []).length = (2 : Int).toNat) ∧
      (∀ j, j < bs.length →
        0 < (bs.getD j []).length ∧ (bs.getD j []).length ≤ (2 : Int).toNat)) :=
  ⟨by decide,
    (C9_batch_contract [10, 20, 30, 40, 50] 2 false).1 (by decide)⟩

theorem length_argsort (row : List Int) : (argsort row).length = row.length := by
  simp [argsort]

theorem mem_argsort {row : List Int} {i : Nat} : i ∈ argsort row ↔ i < row.length := by
  simp [argsort]

theorem argsort_sorted (row : List Int) :
    List.Pairwise (fun i j => row.getD i 0 ≤ row.getD j 0) (argsort row) := by
  haveI : IsTotal Nat (fun i j => row.getD i 0 ≤ row.getD j 0) :=
    ⟨fun a b => le_total _ _⟩
  haveI : IsTrans Nat (fun i j => row.getD i 0 ≤ row.getD j 0) :=
    ⟨fun a b c hab hbc => le_trans hab hbc⟩
  exact List.sorted_insertionSort _ _

theorem gather_take {α : Type} (xs : List α) (d : α) (idx : List Nat) (k : Nat) :
    gather xs d (idx.take k) = (gather xs d idx).take k := by
  simp [gather]

theorem gather_self_range {α : Type} (xs : List α) (d : α) :
    gather xs d (List.range xs.length) = xs := by
  apply List.ext_getElem (by simp [gather])
  intro i h1 h2
  simp only [gather, List.getElem_map, List.getElem_range]
  exact List.getD_eq_getElem xs d h2

theorem gather_argsort_sorted (row : List Int) :
    List.Sorted (· ≤ ·) (gather row 0 (argsort row)) :=
  List.Pairwise.map _ (fun _ _ h => h) (argsort_sorted row)

theorem gather_argsort_perm (row : List Int) :
    List.Perm (gather row 0 (argsort row)) row := by
  have h : List.Perm (gather row 0 (argsort row)) (gather row 0 (List.range row.length)) :=
    List.Perm.map _ (List.perm_insertionSort _ _)
  simpa [gather_self_range] using h

theorem gather_argsort_eq_sort (row : List Int) :
    gather row 0 (argsort row) = List.insertionSort (· ≤ ·) row := by
  exact List.eq_of_perm_of_sorted
    ((gather_argsort_perm row).trans (List.perm_insertionSort _ row).symm)
    (gather_argsort_sorted row)
    (List.sorted_insertionSort _ row)

theorem argsort_of_sorted (vs : List Int) (h : List.Sorted (· ≤ ·) vs) :
    argsort vs = List.range vs.length := by
  apply List.Sorted.insertionSort_eq
  rw [List.Sorted, List.pairwise_iff_getElem]
  intro i j h1 h2 hij
  simp only [List.getElem_range]
  have h1' : i < vs.length := by simpa using h1
  have h2' : j < vs.length := by simpa using h2
  rw [List.getD_eq_getElem vs 0 h1', List.getD_eq_getElem vs 0 h2']
  exact List.pairwise_iff_getElem.mp h i j h1' h2' hij

theorem topkCore_eq (row : List Int) (k : Nat) :
    topkCore row k =
      ((List.insertionSort (· ≤ ·) row).take k, (argsort row).take k) := by
  unfold topkCore argpartition
  by_cases h : k ≥ row.length
  · rw [if_pos h]
    show (gather row 0 ((argsort row).take k), (argsort row).take k) = _
    rw [gather_take, gather_argsort_eq_sort]
  · rw [if_neg h]
    have hs : List.Sorted (· ≤ ·) (gather row 0 ((argsort row).take k)) := by
      rw [gather_take]
      exact List.Pairwise.sublist (List.take_sublist k _) (gather_argsort_sorted row)
    have ha := argsort_of_sorted _ hs
    have hlen : (gather row 0 ((argsort row).take k)).length =
        ((argsort row).take k).length := by simp [gather]
    show (gather (gather row 0 ((argsort row).take k)) 0
        (argsort (gather row 0 ((argsort row).take k))),
      gather ((argsort row).take k) 0
        (argsort (gather row 0 ((argsort row).take k)))) = _
    rw [ha, gather_self_range, hlen, gather_self_range, gather_take,
      gather_argsort_eq_sort]

theorem getD_map_neg (row : List Int) (i : Nat) :
    (row.map (fun v => -v)).getD i 0 = -(row.getD i 0) := by
  rcases Nat.lt_or_ge i row.length with h | h
  · rw [List.getD_eq_getElem _ _ (by simpa using h), List.getD_eq_getElem _ _ h,
      List.getElem_map]
  · rw [List.getD_eq_default _ _ (by simpa using h), List.getD_eq_default _ _ h,
      neg_zero]

theorem gather_map_neg (row : List Int) (idx : List Nat) :
    gather (row.map (fun v => -v)) 0 idx = (gather row 0 idx).map (fun v => -v) := by
  simp only [gather, List.map_map]
  exact List.map_congr_left (fun i _ => getD_map_neg row i)

theorem sort_map_neg (row : List Int) :
    (List.insertionSort (· ≤ ·) (row.map (fun v => -v))).map (fun v => -v) =
      List.insertionSort (fun a b : Int => b ≤ a) row := by
  haveI : IsTotal Int (fun a b : Int => b ≤ a) := ⟨fun a b => le_total b a⟩
  haveI : IsTrans Int (fun a b : Int => b ≤ a) :=
    ⟨fun a b c hab hbc => le_trans hbc hab⟩
  haveI : IsAntisymm Int (fun a b : Int => b ≤ a) :=
    ⟨fun a b hab hba => le_antisymm hba hab⟩
  refine List.eq_of_perm_of_sorted ?_ ?_ (List.sorted_insertionSort _ row)
  · refine List.Perm.trans ?_ (List.perm_insertionSort _ row).symm
    have h1 : List.Perm
        ((List.insertionSort (· ≤ ·) (row.map (fun v => -v))).map (fun v => -v))
        ((row.map (fun v => -v)).map (fun v => -v)) :=
      List.Perm.map _ (List.perm_insertionSort _ _)
    simpa [List.map_map, Function.comp_def] using h1
  · exact List.Pairwise.map (fun v : Int => -v) (fun a b h => neg_le_neg h)
      (List.sorted_insertionSort (· ≤ ·) (row.map (fun v => -v)))

theorem topkRow_false (row : List Int) (k : Nat) :
    topkRow row k false =
      ((List.insertionSort (· ≤ ·) row).take k, (argsort row).take k) := by
  simp [topkRow, topkCore_eq]

theorem topkRow_true (row : List Int) (k : Nat) :
    topkRow row k true =
      ((List.insertionSort (fun a b : Int => b ≤ a) row).take k,
        (argsort (row.map (fun v => -v))).take k) := by
  simp only [topkRow, if_true, topkCore_eq, List.map_take, sort_map_neg]

theorem gather_argsort_neg (row : List Int) (k : Nat) :
    gather row 0 ((argsort (row.map (fun v => -v))).take k) =
      (List.insertionSort (fun a b : Int => b ≤ a) row).take k := by
  have h1 : gather (row.map (fun v => -v)) 0 ((argsort (row.map (fun v => -v))).take k) =
      (List.insertionSort (· ≤ ·) (row.map (fun v => -v))).take k := by
    rw [gather_take, gather_argsort_eq_sort]
  have h3 : ((gather row 0 ((argsort (row.map (fun v => -v))).take k)).map
      (fun v : Int => -v)).map (fun v : Int => -v) =
      gather row 0 ((argsort (row.map (fun v => -v))).take k) := by
    simp [List.map_map, Function.comp_def]
  calc gather row 0 ((argsort (row.map (fun v => -v))).take k)
      = ((gather row 0 ((argsort (row.map (fun v => -v))).take k)).map
          (fun v : Int => -v)).map (fun v : Int => -v) := h3.symm
    _ = (gather (row.map (fun v => -v)) 0
          ((argsort (row.map (fun v => -v))).take k)).map (fun v : Int => -v) := by
        rw [gather_map_neg]
    _ = ((List.insertionSort (· ≤ ·) (row.map (fun v => -v))).take k).map
          (fun v : Int => -v) := by rw [h1]
    _ = ((List.insertionSort (· ≤ ·) (row.map (fun v => -v))).map
          (fun v : Int => -v)).take k := by rw [List.map_take]
    _ = (List.insertionSort (fun a b : Int => b ≤ a) row).take k := by
        rw [sort_map_neg]

theorem top_k_mat_fst_getD (values : List (List Int)) (k : Nat) (dsc : Bool)
    (i : Nat) (hi : i < values.length) :
    (top_k_mat values k dsc).1.getD i [] = (topkRow (values.getD i []) k dsc).1 := by
  simp only [top_k_mat]
  rw [List.getD_eq_getElem _ _ (by simpa using hi), List.getElem_map,
    List.getD_eq_getElem _ _ hi]

theorem top_k_mat_snd_getD (values : List (List Int)) (k : Nat) (dsc : Bool)
    (i : Nat) (hi : i < values.length) :
    (top_k_mat values k dsc).2.getD i [] = (topkRow (values.getD i []) k dsc).2 := by
  simp only [top_k_mat]
  rw [List.getD_eq_getElem _ _ (by simpa using hi), List.getElem_map,
    List.getD_eq_getElem _ _ hi]

/-- C1: `top_k(values, k, descending=False)` on a matrix input returns, per
query row, values sorted ascending, of length `min k row_length`, equal to
the `k` smallest entries of the row (the prefix of the sorted row), together
with in-range indices that reproduce the returned values when they index the
original row; with `descending=True` the analogous statement holds for the
`k` largest values, sorted descending. -/
theorem C1_top_k_rows (values : List (List Int)) (k : Nat) (_hk : 1 ≤ k)
    (i : Nat) (hi : i < values.length) :
    top_k (Arr.mat values) k false = some (top_k_mat values k false) ∧
    List.Sorted (· ≤ ·) ((top_k_mat values k false).1.getD i []) ∧
    ((top_k_mat values k false).1.getD i []).length = min k (values.getD i []).length ∧
    gather (values.getD i []) 0 ((top_k_mat values k false).2.getD i []) =
      (top_k_mat values k false).1.getD i [] ∧
    (∀ j ∈ (top_k_mat values k false).2.getD i [], j < (values.getD i []).length) ∧
    (top_k_mat values k false).1.getD i [] =
      (List.insertionSort (· ≤ ·) (values.getD i [])).take k ∧
    List.Sorted (fun a b => b ≤ a) ((top_k_mat values k true).1.getD i []) ∧
    ((top_k_mat values k true).1.getD i []).length = min k (values.getD i []).length ∧
    gather (values.getD i []) 0 ((top_k_mat values k true).2.getD i []) =
      (top_k_mat values k true).1.getD i [] ∧
    (∀ j ∈ (top_k_mat values k true).2.getD i [], j < (values.getD i []).length) ∧
    (top_k_mat values k true).1.getD i [] =
      (List.insertionSort (fun a b : Int => b ≤ a) (values.getD i [])).take k := by
  haveI : IsTotal Int (fun a b : Int => b ≤ a) := ⟨fun a b => le_total b a⟩
  haveI : IsTrans Int (fun a b : Int => b ≤ a) :=
    ⟨fun a b c hab hbc => le_trans hbc hab⟩
  set row := values.getD i [] with hrow
  rw [top_k_mat_fst_getD values k false i hi, top_k_mat_snd_getD values k false i hi,
    top_k_mat_fst_getD values k true i hi, top_k_mat_snd_getD values k true i hi,
    topkRow_false, topkRow_true]
  refine ⟨rfl, ?_, ?_, ?_, ?_, rfl, ?_, ?_, ?_, ?_, rfl⟩
  · exact List.Pairwise.sublist (List.take_sublist k _) (List.sorted_insertionSort _ row)
  · rw [List.length_take, List.length_insertionSort]
  · rw [gather_take, gather_argsort_eq_sort]
  · intro j hj
    exact mem_argsort.mp (List.take_subset k _ hj)
  · exact List.Pairwise.sublist (List.take_sublist k _) (List.sorted_insertionSort _ row)
  · rw [List.length_take, List.length_insertionSort]
  · exact gather_argsort_neg row k
  · intro j hj
    have h := mem_argsort.mp (List.take_subset k _ hj)
    rw [List.length_map] at h
    exact h

theorem C1_top_k_witness :
    1 ≤ 2 ∧ 0 < [[5, 1, 4, 2]].length ∧
    (top_k_mat [[5, 1, 4, 2]] 2 false).1.getD 0 [] =
      (List.insertionSort (· ≤ ·) ([[5, 1, 4, 2]].getD 0 [])).take 2 ∧
    gather ([[(5 : Int), 1, 4, 2]].getD 0 [])
        0 ((top_k_mat [[5, 1, 4, 2]] 2 false).2.getD 0 []) =
      (top_k_mat [[5, 1, 4, 2]] 2 false).1.getD 0 [] :=
  ⟨by decide, by decide,
    (C1_top_k_rows [[5, 1, 4, 2]] 2 (by decide) 0 (by decide)).2.2.2.2.2.1,
    (C1_top_k_rows [[5, 1, 4, 2]] 2 (by decide) 0 (by decide)).2.2.2.1⟩

theorem sumSq_nonneg (x : List ℝ) : 0 ≤ sumSq x := by
  induction x with
  | nil => simp [sumSq]
  | cons a xs ih =>
    simp only [sumSq, List.map_cons, List.sum_cons]
    have := mul_self_nonneg a
    have h2 : (0 : ℝ) ≤ (xs.map (fun a => a * a)).sum := ih
    linarith

theorem sumSq_pos (x : List ℝ) (h : ∃ a ∈ x, a ≠ 0) : 0 < sumSq x := by
  induction x with
  | nil => simp at h
  | cons a xs ih =>
    simp only [sumSq, List.map_cons, List.sum_cons]
    rcases h with ⟨b, hb, hbne⟩
    rcases List.mem_cons.mp hb with rfl | hmem
    · have h1 : 0 < b * b := mul_self_pos.mpr hbne
      have h2 : (0 : ℝ) ≤ (xs.map (fun a => a * a)).sum := sumSq_nonneg xs
      linarith
    · have h1 : 0 < sumSq xs := ih ⟨b, hmem, hbne⟩
      have h2 := mul_self_nonneg a
      simp only [sumSq] at h1
      linarith

theorem dotR_self (x : List ℝ) : dotR x x = sumSq x := by
  simp [dotR, sumSq, List.zipWith_same]

theorem norm2_mul_self (x : List ℝ) : norm2 x * norm2 x = sumSq x :=
  Real.mul_self_sqrt (sumSq_nonneg x)

theorem clip1_one : clip1 1 = 1 := by
  norm_num [clip1]

theorem clampNegNoise_zero : clampNegNoise 0 = 0 := by
  simp [clampNegNoise]

theorem expand_if_scalar_not_scalar {α : Type} (a : Arr α) :
    (_expand_if_scalar a).isScalarArr = false := by
  cases a <;> rfl

theorem cosineSimRaw_self_vec (x : List ℝ) (eps : ℝ) (heps : 0 ≤ eps)
    (hx : ∃ a ∈ x, a ≠ 0) :
    cosineSimRaw [x] [x] eps = [[1]] := by
  have hpos : 0 < sumSq x := sumSq_pos x hx
  have hne : sumSq x + eps ≠ 0 := ne_of_gt (by linarith)
  have hentry : clip1 ((dotR x x + eps) / (norm2 x * norm2 x + eps)) = 1 := by
    rw [dotR_self, norm2_mul_self, div_self hne, clip1_one]
  simp [cosineSimRaw, matmulT, outer, map2, hentry]

/-- C6: the `sims` matrix computed by `cosine_sim` is, entry for entry, the
spec formula `(x·yᵀ + eps)/(‖x‖‖y‖ + eps)` clipped to `[-1,1]`; on the reals
(exact arithmetic standing in for floating point) `cosine_sim(x, x, eps)` of
a non-zero vector is exactly `1` and `sqeuclidean_dist(x, x)` is exactly
`0`. -/
theorem C6_metrics_formulas (eps : ℝ) (heps : 0 ≤ eps) :
    (∀ x y : List (List ℝ), cosineSimRaw x y eps = cosineSimSpec x y eps) ∧
    (∀ x : List ℝ, (∃ a ∈ x, a ≠ 0) →
      cosine_sim (Arr.vec x) (Arr.vec x) eps = some (Arr.vec [1])) ∧
    (∀ x : List ℝ, sqeuclidean_dist (Arr.vec x) (Arr.vec x) = some (Arr.vec [0])) := by
  refine ⟨?_, ?_, ?_⟩
  · intro x y
    simp [cosineSimRaw, cosineSimSpec, map2, matmulT, outer, List.map_map,
      List.zipWith_map, List.zipWith_same, Function.comp_def]
  · intro x hx
    simp only [cosine_sim, _expand_if_single_axis, cosineSimRaw_self_vec x eps heps hx]
    rfl
  · intro x
    have hentry0 : sumSq x + sumSq x - 2 * dotR x x = 0 := by
      rw [dotR_self]; ring
    have hraw : sqeuclidRaw [x] [x] = [[0]] := by
      simp [sqeuclidRaw, hentry0]
    simp only [sqeuclidean_dist, _expand_if_single_axis, hraw]
    simp [squeezeArr, mapArr, clampNegNoise_zero, _expand_if_scalar]

theorem C6_metrics_witness :
    (0 : ℝ) ≤ 1 ∧ (∃ a ∈ [(3 : ℝ)], a ≠ 0) ∧
    cosine_sim (Arr.vec [3]) (Arr.vec [3]) 1 = some (Arr.vec [1]) ∧
    sqeuclidean_dist (Arr.vec [(3 : ℝ)]) (Arr.vec [3]) = some (Arr.vec [0]) :=
  ⟨by norm_num, ⟨3, by norm_num⟩,
    (C6_metrics_formulas 1 (by norm_num)).2.1 [3] ⟨3, by norm_num⟩,
    (C6_metrics_formulas 1 (by norm_num)).2.2 [3]⟩

theorem cosine_sim_zero_eval :
    cosine_sim (Arr.vec [(0 : ℝ)]) (Arr.vec [0]) 0 = some (Arr.vec [0]) := by
  have hentry : clip1 ((dotR [(0 : ℝ)] [0] + 0) / (norm2 [0] * norm2 [0] + 0)) = 0 := by
    simp [dotR, norm2, sumSq, clip1, Real.sqrt_zero]
  have hraw : cosineSimRaw [[(0 : ℝ)]] [[0]] 0 = [[0]] := by
    simp only [cosineSimRaw, matmulT, outer, map2, List.map_cons, List.map_nil,
      List.zipWith_cons_cons, List.zipWith_nil_right, List.zipWith_nil_left]
    simpa using hentry
  simp only [cosine_sim, _expand_if_single_axis, hraw]
  rfl

theorem sqeuclidean_zero_eval :
    sqeuclidean_dist (Arr.vec [(0 : ℝ)]) (Arr.vec [0]) = some (Arr.vec [0]) := by
  have hraw : sqeuclidRaw [[(0 : ℝ)]] [[0]] = [[0]] := by
    simp [sqeuclidRaw, sumSq, dotR]
  simp only [sqeuclidean_dist, _expand_if_single_axis, hraw]
  simp [squeezeArr, mapArr, clampNegNoise_zero, _expand_if_scalar]

theorem euclidean_zero_eval :
    euclidean_dist (Arr.vec [(0 : ℝ)]) (Arr.vec [0]) = some (Arr.vec [0]) := by
  have hraw : sqeuclidRaw [[(0 : ℝ)]] [[0]] = [[0]] := by
    simp [sqeuclidRaw, sumSq, dotR]
  have hsq : sqeuclidean_dist (Arr.mat [[(0 : ℝ)]]) (Arr.mat [[0]]) =
      some (Arr.vec [0]) := by
    simp only [sqeuclidean_dist, _expand_if_single_axis, hraw]
    simp [squeezeArr, mapArr, clampNegNoise_zero, _expand_if_scalar]
  simp only [euclidean_dist, _expand_if_single_axis, hsq]
  simp [mapArr, squeezeArr, _expand_if_scalar, Real.sqrt_zero]

/-- C7: rank-1 inputs of the metric functions and of `top_k` are treated
exactly as the corresponding single-row rank-2 inputs, and no result of a
metric function is a bare scalar (a rank-0 output is re-expanded to
rank 1). -/
theorem C7_rank_normalisation :
    (∀ (v : List ℝ) (y : Arr ℝ) (eps : ℝ),
      cosine_sim (Arr.vec v) y eps = cosine_sim (Arr.mat [v]) y eps) ∧
    (∀ (x : Arr ℝ) (v : List ℝ) (eps : ℝ),
      cosine_sim x (Arr.vec v) eps = cosine_sim x (Arr.mat [v]) eps) ∧
    (∀ (v : List ℝ) (y : Arr ℝ),
      sqeuclidean_dist (Arr.vec v) y = sqeuclidean_dist (Arr.mat [v]) y) ∧
    (∀ (x : Arr ℝ) (v : List ℝ),
      sqeuclidean_dist x (Arr.vec v) = sqeuclidean_dist x (Arr.mat [v])) ∧
    (∀ (v : List ℝ) (y : Arr ℝ),
      euclidean_dist (Arr.vec v) y = euclidean_dist (Arr.mat [v]) y) ∧
    (∀ (x : Arr ℝ) (v : List ℝ),
      euclidean_dist x (Arr.vec v) = euclidean_dist x (Arr.mat [v])) ∧
    (∀ (v : List Int) (k : Nat) (d : Bool),
      top_k (Arr.vec v) k d = top_k (Arr.mat [v]) k d) ∧
    (∀ (x y : Arr ℝ) (eps : ℝ) (r : Arr ℝ),
      cosine_sim x y eps = some r → r.isScalarArr = false) ∧
    (∀ (x y : Arr ℝ) (r : Arr ℝ),
      sqeuclidean_dist x y = some r → r.isScalarArr = false) ∧
    (∀ (x y : Arr ℝ) (r : Arr ℝ),
      euclidean_dist x y = some r → r.isScalarArr = false) := by
  refine ⟨fun v y eps => rfl, fun x v eps => rfl, fun v y => rfl, fun x v => rfl,
    fun v y => rfl, fun x v => rfl, fun v k d => rfl, ?_, ?_, ?_⟩
  · intro x y eps r h
    cases x <;> cases y <;>
      simp only [cosine_sim, _expand_if_single_axis, Option.some.injEq] at h <;>
      first
        | exact absurd h (by simp)
        | (rw [← h]; exact expand_if_scalar_not_scalar _)
  · intro x y r h
    cases x <;> cases y <;>
      simp only [sqeuclidean_dist, _expand_if_single_axis, Option.some.injEq] at h <;>
      first
        | exact absurd h (by simp)
        | (rw [← h]; exact expand_if_scalar_not_scalar _)
  · intro x y r h
    cases x <;> cases y <;>
      simp only [euclidean_dist, sqeuclidean_dist, _expand_if_single_axis,
        Option.some.injEq] at h <;>
      first
        | exact absurd h (by simp)
        | (rw [← h]; exact expand_if_scalar_not_scalar _)

theorem C7_rank_normalisation_witness :
    cosine_sim (Arr.vec [(0 : ℝ)]) (Arr.vec [0]) 0 = some (Arr.vec [0]) ∧
    Arr.isScalarArr (Arr.vec [(0 : ℝ)]) = false ∧
    sqeuclidean_dist (Arr.vec [(0 : ℝ)]) (Arr.vec [0]) = some (Arr.vec [0]) ∧
    euclidean_dist (Arr.vec [(0 : ℝ)]) (Arr.vec [0]) = some (Arr.vec [0]) :=
  ⟨cosine_sim_zero_eval,
    C7_rank_normalisation.2.2.2.2.2.2.2.1 (Arr.vec [0]) (Arr.vec [0]) 0
      (Arr.vec [0]) cosine_sim_zero_eval,
    sqeuclidean_zero_eval, euclidean_zero_eval⟩

end DocArraySpec
